import Mathlib

/-!
Verification of the boulder distributed rate-limiting core (package
`ratelimits`): a shallow embedding of `limiter.go` and `source_redis.go`
together with theorems about the Limiter operations Check, Spend,
BatchSpend, Refund, BatchRefund and Reset, the limit-resolution function
`getLimit`, and the Redis source's error classification `resultForError`.

Times and durations are modelled as `Int` nanoseconds (Go stores TATs as
nanosecond Unix timestamps).  The Go zero `time.Time{}` is a point far
before the Unix epoch; it is modelled by the constant `goTimeZero`.
The datastore (source) is modelled as an association list from bucket key
to TAT; each Limiter operation is a pure function from a context and a
store to a result, the updated store, and the trace of source calls it
issued (each call recording the context it was given).
-/

namespace BoulderRL

/-- Go `time.Time{}` (the zero time, January 1 of year 1 UTC) expressed in
nanoseconds relative to the Unix epoch.  `time.Time.IsZero` holds exactly
for this value. -/
def goTimeZero : Int := -62135596800000000000

/-- Model of Go `time.Time.IsZero`. -/
def timeIsZero (t : Int) : Bool := t == goTimeZero

/-- Modelled from the spec: the static limit configuration (the `limit`
struct lives in a file of this repository that is not under src/).  Fields
are `burst`, `count`, `period` (§3 DATA MODEL) and the `is_override` flag. -/
structure limit where
  Burst : Int
  Count : Int
  Period : Int
  isOverride : Bool
deriving DecidableEq

/-- Modelled from the spec: `emission_interval = period / count` (§3).
Durations are integral nanoseconds, so the quotient is integral. -/
def emissionInterval (rl : limit) : Int := Int.fdiv rl.Period rl.Count

/-- Modelled from the spec: a limit `Name` as observed by `getLimit`
(the `Name` enum lives in a file of this repository not under src/):
whether the enum value is one of the defined ones, and its string form
used to key the defaults map. -/
structure Name where
  valid : Bool
  enumString : String
deriving DecidableEq

/-- A bucket identity: `(name, key)`. -/
structure Bucket where
  name : Name
  key : String
deriving DecidableEq

/-- A bucket identity with the cost to spend or refund. -/
structure BucketWithCost where
  name : Name
  key : String
  cost : Int
deriving DecidableEq

/-- The `Decision` struct of limiter.go: Allowed, Remaining, RetryIn,
ResetIn and the (unexported) newTAT. -/
structure Decision where
  Allowed : Bool
  Remaining : Int
  RetryIn : Int
  ResetIn : Int
  newTAT : Int
deriving DecidableEq

/-- `disabledLimitDecision` of limiter.go: `&Decision{true, 0, 0, 0, time.Time{}}`. -/
def disabledLimitDecision : Decision := ⟨true, 0, 0, 0, goTimeZero⟩

/-- Clamp a computed remaining-capacity value into `[0, burst]` (§4.1:
`remaining` is clamped to `[0, burst]`). -/
def clampRemaining (rl : limit) (x : Int) : Int := max 0 (min rl.Burst x)

/-- Modelled from the spec: the GCRA spend kernel `maybeSpend` (§4.1, the
kernel lives in a file of this repository not under src/).  Inputs the
current time, the limit, the stored TAT and the cost; produces a Decision.
Spend semantics steps 1-7 of §4.1, with `remaining` computed by floor
division and clamped, and on denial computed against the effective TAT. -/
def maybeSpend (now : Int) (rl : limit) (tat : Int) (cost : Int) : Decision :=
  let e := emissionInterval rl
  let inc := cost * e
  let effectiveTAT := max tat now
  let candidateTAT := effectiveTAT + inc
  let thresholdTAT := now + rl.Burst * e
  if thresholdTAT < candidateTAT then
    ⟨false,
     clampRemaining rl (Int.fdiv (thresholdTAT - effectiveTAT) e),
     candidateTAT - thresholdTAT,
     max 0 (effectiveTAT - now),
     tat⟩
  else
    ⟨true,
     clampRemaining rl (Int.fdiv (thresholdTAT - candidateTAT) e),
     0,
     max 0 (candidateTAT - now),
     candidateTAT⟩

/-- Modelled from the spec: the GCRA refund kernel `maybeRefund` (§4.1,
the kernel lives in a file of this repository not under src/).  If the
stored TAT is at or before `now` the bucket is already full and the refund
is denied; otherwise the TAT moves back by `cost * emission_interval`,
clamped at `now` (partial refund), and the refund is allowed. -/
def maybeRefund (now : Int) (rl : limit) (tat : Int) (cost : Int) : Decision :=
  let e := emissionInterval rl
  let thresholdTAT := now + rl.Burst * e
  if tat ≤ now then
    ⟨false,
     clampRemaining rl (Int.fdiv (thresholdTAT - tat) e),
     0,
     max 0 (tat - now),
     tat⟩
  else
    let refundAmount := cost * e
    let candidateTAT := max now (tat - refundAmount)
    ⟨true,
     clampRemaining rl (Int.fdiv (thresholdTAT - candidateTAT) e),
     0,
     max 0 (candidateTAT - now),
     candidateTAT⟩

/-- A Go context as the Limiter observes it: whether it is cancelable by
the client, and its deadline (if any). -/
structure Ctx where
  cancelable : Bool
  deadline : Option Int
deriving DecidableEq

/-- Model of Go `context.WithoutCancel`: the returned context is not
canceled when the parent is (its Done channel is nil) and it returns no
Deadline — the stdlib function drops the parent's deadline along with its
cancelability. -/
def withoutCancel (_ : Ctx) : Ctx := ⟨false, none⟩

/-- The store backing the source: an association list from bucket key to
the stored TAT (nanoseconds). -/
abbrev Store := List (String × Int)

/-- First-match association-list lookup. -/
def assocLookup {α : Type} : List (String × α) → String → Option α
  | [], _ => none
  | (k1, v1) :: rest, k => if k = k1 then some v1 else assocLookup rest k

/-- Insert-or-replace for association lists (a Go map assignment). -/
def upsert {α : Type} : List (String × α) → String → α → List (String × α)
  | [], k, v => [(k, v)]
  | (k1, v1) :: rest, k, v =>
    if k = k1 then (k1, v) :: rest else (k1, v1) :: upsert rest k v

/-- Source Get on the store model. -/
def storeGet (st : Store) (k : String) : Option Int := assocLookup st k

/-- Source Set on the store model. -/
def storeSet (st : Store) (k : String) (v : Int) : Store := upsert st k v

/-- Source Delete on the store model. -/
def storeDel : Store → String → Store
  | [], _ => []
  | (k1, v1) :: rest, k =>
    if k = k1 then storeDel rest k else (k1, v1) :: storeDel rest k

/-- Source BatchGet on the store model: keys absent from the store are
omitted from the returned association list. -/
def storeBatchGet (st : Store) (ks : List String) : List (String × Int) :=
  ks.filterMap (fun k => (storeGet st k).map (fun v => (k, v)))

/-- Source BatchSet on the store model: write every pair of the batch. -/
def storeBatchSet (st : Store) (m : List (String × Int)) : Store :=
  m.foldl (fun s kv => storeSet s kv.1 kv.2) st

/-- One call issued to the source, recording the context it was given. -/
inductive SrcCall where
  | get (c : Ctx) (k : String)
  | set (c : Ctx) (k : String) (v : Int)
  | batchGet (c : Ctx) (ks : List String)
  | batchSet (c : Ctx) (m : List (String × Int))
  | del (c : Ctx) (k : String)
deriving DecidableEq

/-- The context a source call was issued with. -/
def callCtx : SrcCall → Ctx
  | .get c _ => c
  | .set c _ _ => c
  | .batchGet c _ => c
  | .batchSet c _ => c
  | .del c _ => c

/-- The error kinds the Limiter surfaces (ErrInvalidCost,
ErrInvalidCostForCheck, ErrInvalidCostOverLimit, errZeroBucketsInBatch,
the invalid limit-name error of getLimit, errLimitDisabled, and the
source's ErrBucketNotFound). -/
inductive LimErr where
  | invalidCost
  | invalidCostForCheck
  | invalidCostOverLimit
  | zeroBucketsInBatch
  | invalidName
  | limitDisabled
  | bucketNotFound
deriving DecidableEq

/-- Decidable equality of results, for evaluating operations on concrete
inputs. -/
instance {ε α : Type} [DecidableEq ε] [DecidableEq α] : DecidableEq (Except ε α)
  | .ok a, .ok b =>
    if h : a = b then .isTrue (by rw [h]) else .isFalse (by intro hc; cases hc; exact h rfl)
  | .error a, .error b =>
    if h : a = b then .isTrue (by rw [h]) else .isFalse (by intro hc; cases hc; exact h rfl)
  | .ok _, .error _ => .isFalse (by intro hc; cases hc)
  | .error _, .ok _ => .isFalse (by intro hc; cases hc)

/-- Result of a Limiter operation: the returned value or error, the store
after the operation, and the trace of source calls issued. -/
structure OpResult (α : Type) where
  res : Except LimErr α
  store : Store
  calls : List SrcCall

/-- The Limiter's configuration: the defaults map (keyed by the limit
name's enum string) and the overrides map (keyed by bucket key). -/
structure Config where
  defaults : List (String × limit)
  overrides : List (String × limit)
deriving DecidableEq

/-- `getLimit` of limiter.go: an invalid name is an error; a non-empty
bucket key present in overrides wins; else the default for the name; else
`errLimitDisabled`. -/
def getLimit (cfg : Config) (name : Name) (bucketKey : String) : Except LimErr limit :=
  if name.valid = false then .error .invalidName
  else
    match (if bucketKey ≠ "" then assocLookup cfg.overrides bucketKey else none) with
    | some ol => .ok ol
    | none =>
      match assocLookup cfg.defaults name.enumString with
      | some dl => .ok dl
      | none => .error .limitDisabled

/-- `Check` of limiter.go.  Negative cost is an error; a disabled limit
yields the synthetic allowed decision; cost above burst is an error; the
TAT is fetched with a cancellation-detached context and a missing bucket
is treated as a TAT of `now`; the kernel runs; nothing is written. -/
def check (cfg : Config) (ctx : Ctx) (st : Store) (b : BucketWithCost) (now : Int) :
    OpResult Decision :=
  if b.cost < 0 then ⟨.error .invalidCostForCheck, st, []⟩
  else
    match getLimit cfg b.name b.key with
    | .error e =>
      if e = .limitDisabled then ⟨.ok disabledLimitDecision, st, []⟩
      else ⟨.error e, st, []⟩
    | .ok lim =>
      if lim.Burst < b.cost then ⟨.error .invalidCostOverLimit, st, []⟩
      else
        let ctx2 := withoutCancel ctx
        match storeGet st b.key with
        | none => ⟨.ok (maybeSpend now lim now b.cost), st, [.get ctx2 b.key]⟩
        | some tat => ⟨.ok (maybeSpend now lim tat b.cost), st, [.get ctx2 b.key]⟩

/-- `initialize` of limiter.go (bucket creation on first spend): evaluate
the kernel against `now` and persist the resulting TAT unconditionally
(it re-detaches cancellation, which is idempotent). -/
def initBucket (ctx : Ctx) (st : Store) (rl : limit) (b : BucketWithCost) (now : Int) :
    OpResult Decision :=
  let d := maybeSpend now rl now b.cost
  let ctx2 := withoutCancel ctx
  ⟨.ok d, storeSet st b.key d.newTAT, [.set ctx2 b.key d.newTAT]⟩

/-- `Spend` of limiter.go.  After validation and limit resolution, the TAT
is fetched with a cancellation-detached context; a missing bucket is
initialized (kernel at `now`, written unconditionally); otherwise the
kernel runs and the new TAT is written only when allowed. -/
def spend (cfg : Config) (ctx : Ctx) (st : Store) (b : BucketWithCost) (now : Int) :
    OpResult Decision :=
  if b.cost ≤ 0 then ⟨.error .invalidCost, st, []⟩
  else
    match getLimit cfg b.name b.key with
    | .error e =>
      if e = .limitDisabled then ⟨.ok disabledLimitDecision, st, []⟩
      else ⟨.error e, st, []⟩
    | .ok lim =>
      if lim.Burst < b.cost then ⟨.error .invalidCostOverLimit, st, []⟩
      else
        let ctx2 := withoutCancel ctx
        match storeGet st b.key with
        | none =>
          let r := initBucket ctx2 st lim b now
          ⟨r.res, r.store, .get ctx2 b.key :: r.calls⟩
        | some tat =>
          let d := maybeSpend now lim tat b.cost
          if d.Allowed = false then ⟨.ok d, st, [.get ctx2 b.key]⟩
          else ⟨.ok d, storeSet st b.key d.newTAT,
                [.get ctx2 b.key, .set ctx2 b.key d.newTAT]⟩

/-- `Refund` of limiter.go.  After validation and limit resolution (there
is no burst check here), the TAT is fetched with a cancellation-detached
context; any Get error — including the source's bucket-not-found — is
propagated; otherwise the refund kernel runs and the new TAT is written
only when the refund is allowed. -/
def refund (cfg : Config) (ctx : Ctx) (st : Store) (b : BucketWithCost) (now : Int) :
    OpResult Decision :=
  if b.cost ≤ 0 then ⟨.error .invalidCost, st, []⟩
  else
    match getLimit cfg b.name b.key with
    | .error e =>
      if e = .limitDisabled then ⟨.ok disabledLimitDecision, st, []⟩
      else ⟨.error e, st, []⟩
    | .ok lim =>
      let ctx2 := withoutCancel ctx
      match storeGet st b.key with
      | none => ⟨.error .bucketNotFound, st, [.get ctx2 b.key]⟩
      | some tat =>
        let d := maybeRefund now lim tat b.cost
        if d.Allowed = false then ⟨.ok d, st, [.get ctx2 b.key]⟩
        else ⟨.ok d, storeSet st b.key d.newTAT,
              [.get ctx2 b.key, .set ctx2 b.key d.newTAT]⟩

/-- `Reset` of limiter.go: unconditional Delete with a
cancellation-detached context. -/
def reset (st : Store) (ctx : Ctx) (b : Bucket) : OpResult Unit :=
  let ctx2 := withoutCancel ctx
  ⟨.ok (), storeDel st b.key, [.del ctx2 b.key]⟩

/-- Accumulator of the per-bucket loops of BatchSpend and BatchRefund:
minRemaining, maxRetryIn, maxResetIn, maxNewTAT, the newTATs map built so
far, and the consolidated allowed flag. -/
structure BatchAcc where
  minRemaining : Int
  maxRetryIn : Int
  maxResetIn : Int
  maxNewTAT : Int
  newTATs : List (String × Int)
  allowed : Bool
deriving DecidableEq

/-- math.MaxInt64. -/
def maxInt64 : Int := 9223372036854775807

/-- The accumulator BatchSpend starts from: minRemaining = math.MaxInt64,
zero durations, zero maxNewTAT (`time.Time{}`), empty newTATs, allowed
initially true. -/
def batchSpendInitAcc : BatchAcc := ⟨maxInt64, 0, 0, goTimeZero, [], true⟩

/-- The accumulator BatchRefund starts from: as in BatchSpend but allowed
initially false. -/
def batchRefundInitAcc : BatchAcc := ⟨maxInt64, 0, 0, goTimeZero, [], false⟩

/-- The TAT a BatchSpend iteration evaluates against: the batch-get result
for the bucket's key, with a missing or zero entry replaced by `now`
(a full bucket). -/
def batchTATFor (tats : List (String × Int)) (now : Int) (k : String) : Int :=
  match assocLookup tats k with
  | none => now
  | some t => if timeIsZero t then now else t

/-- One iteration of the BatchSpend loop of limiter.go: resolve the limit
(skip disabled, fail on invalid name), evaluate the spend kernel against
the batch-get TAT (missing/zero treated as `now`), record the new TAT when
allowed, and fold the consolidated fields. -/
def batchSpendStep (cfg : Config) (tats : List (String × Int)) (now : Int)
    (acc : BatchAcc) (b : BucketWithCost) : Except LimErr BatchAcc :=
  match getLimit cfg b.name b.key with
  | .error e => if e = .limitDisabled then .ok acc else .error e
  | .ok lim =>
    let d := maybeSpend now lim (batchTATFor tats now b.key) b.cost
    .ok ⟨min acc.minRemaining d.Remaining,
         max acc.maxRetryIn d.RetryIn,
         max acc.maxResetIn d.ResetIn,
         if acc.maxNewTAT < d.newTAT then d.newTAT else acc.maxNewTAT,
         if d.Allowed then upsert acc.newTATs b.key d.newTAT else acc.newTATs,
         acc.allowed && d.Allowed⟩

/-- The BatchSpend loop over the buckets. -/
def runBatchSpendLoop (cfg : Config) (tats : List (String × Int)) (now : Int)
    (acc : BatchAcc) : List BucketWithCost → Except LimErr BatchAcc
  | [] => .ok acc
  | b :: rest =>
    match batchSpendStep cfg tats now acc b with
    | .error e => .error e
    | .ok acc2 => runBatchSpendLoop cfg tats now acc2 rest

/-- `BatchSpend` of limiter.go.  Validates the batch, issues one BatchGet
with a cancellation-detached context, runs the loop, and issues one
BatchSet of the collected new TATs only when the batch was allowed and at
least one bucket yielded a new TAT. -/
def batchSpend (cfg : Config) (ctx : Ctx) (st : Store)
    (buckets : List BucketWithCost) (now : Int) : OpResult Decision :=
  if buckets.isEmpty then ⟨.error .zeroBucketsInBatch, st, []⟩
  else if buckets.any (fun b => b.cost ≤ 0) then ⟨.error .invalidCost, st, []⟩
  else
    let keys := buckets.map (fun b => b.key)
    let ctx2 := withoutCancel ctx
    let tats := storeBatchGet st keys
    match runBatchSpendLoop cfg tats now batchSpendInitAcc buckets with
    | .error e => ⟨.error e, st, [.batchGet ctx2 keys]⟩
    | .ok acc =>
      if acc.newTATs ≠ [] ∧ acc.allowed = true then
        ⟨.ok ⟨acc.allowed, acc.minRemaining, acc.maxRetryIn, acc.maxResetIn, acc.maxNewTAT⟩,
         storeBatchSet st acc.newTATs,
         [.batchGet ctx2 keys, .batchSet ctx2 acc.newTATs]⟩
      else
        ⟨.ok ⟨acc.allowed, acc.minRemaining, acc.maxRetryIn, acc.maxResetIn, acc.maxNewTAT⟩,
         st, [.batchGet ctx2 keys]⟩

/-- One iteration of the BatchRefund loop of limiter.go: resolve the limit
(skip disabled, fail on invalid name), skip missing or zero TATs entirely,
otherwise evaluate the refund kernel, record the new TAT when allowed, and
fold the consolidated fields (allowed is an OR here). -/
def batchRefundStep (cfg : Config) (tats : List (String × Int)) (now : Int)
    (acc : BatchAcc) (b : BucketWithCost) : Except LimErr BatchAcc :=
  match getLimit cfg b.name b.key with
  | .error e => if e = .limitDisabled then .ok acc else .error e
  | .ok lim =>
    match assocLookup tats b.key with
    | none => .ok acc
    | some t =>
      if timeIsZero t then .ok acc
      else
        let d := maybeRefund now lim t b.cost
        .ok ⟨min acc.minRemaining d.Remaining,
             max acc.maxRetryIn d.RetryIn,
             max acc.maxResetIn d.ResetIn,
             if acc.maxNewTAT < d.newTAT then d.newTAT else acc.maxNewTAT,
             if d.Allowed then upsert acc.newTATs b.key d.newTAT else acc.newTATs,
             acc.allowed || d.Allowed⟩

/-- The BatchRefund loop over the buckets. -/
def runBatchRefundLoop (cfg : Config) (tats : List (String × Int)) (now : Int)
    (acc : BatchAcc) : List BucketWithCost → Except LimErr BatchAcc
  | [] => .ok acc
  | b :: rest =>
    match batchRefundStep cfg tats now acc b with
    | .error e => .error e
    | .ok acc2 => runBatchRefundLoop cfg tats now acc2 rest

/-- `BatchRefund` of limiter.go.  Validates the batch, issues one BatchGet
with a cancellation-detached context, runs the loop, and issues one
BatchSet whenever at least one bucket yielded a new TAT — with no gating
on the consolidated allowed flag. -/
def batchRefund (cfg : Config) (ctx : Ctx) (st : Store)
    (buckets : List BucketWithCost) (now : Int) : OpResult Decision :=
  if buckets.isEmpty then ⟨.error .zeroBucketsInBatch, st, []⟩
  else if buckets.any (fun b => b.cost ≤ 0) then ⟨.error .invalidCost, st, []⟩
  else
    let keys := buckets.map (fun b => b.key)
    let ctx2 := withoutCancel ctx
    let tats := storeBatchGet st keys
    match runBatchRefundLoop cfg tats now batchRefundInitAcc buckets with
    | .error e => ⟨.error e, st, [.batchGet ctx2 keys]⟩
    | .ok acc =>
      if acc.newTATs ≠ [] then
        ⟨.ok ⟨acc.allowed, acc.minRemaining, acc.maxRetryIn, acc.maxResetIn, acc.maxNewTAT⟩,
         storeBatchSet st acc.newTATs,
         [.batchGet ctx2 keys, .batchSet ctx2 acc.newTATs]⟩
      else
        ⟨.ok ⟨acc.allowed, acc.minRemaining, acc.maxRetryIn, acc.maxResetIn, acc.maxNewTAT⟩,
         st, [.batchGet ctx2 keys]⟩

/-- Whether one bucket of a BatchRefund batch is evaluated and its refund
allowed: its limit resolves, its TAT is present in the batch-get result
and not zero, and the refund kernel allows.  Mirrors one iteration of the
BatchRefund loop in isolation. -/
def refundEvalAllowed (cfg : Config) (tats : List (String × Int)) (now : Int)
    (b : BucketWithCost) : Bool :=
  match getLimit cfg b.name b.key with
  | .error _ => false
  | .ok lim =>
    match assocLookup tats b.key with
    | none => false
    | some t =>
      if timeIsZero t then false else (maybeRefund now lim t b.cost).Allowed

/-- The Decision one bucket of a BatchSpend batch evaluates to, against
the fixed batch-get result (none when its limit does not resolve).  Each
occurrence of a key is evaluated independently against the same TAT. -/
def spendEvalDecision (cfg : Config) (tats : List (String × Int)) (now : Int)
    (b : BucketWithCost) : Option Decision :=
  match getLimit cfg b.name b.key with
  | .error _ => none
  | .ok lim => some (maybeSpend now lim (batchTATFor tats now b.key) b.cost)

/-- Fold step computing, for a fixed key `k`, the new TAT of the last
occurrence of `k` in the batch whose independent evaluation was allowed. -/
def lastTATStep (cfg : Config) (tats : List (String × Int)) (now : Int) (k : String)
    (cur : Option Int) (b : BucketWithCost) : Option Int :=
  if b.key = k then
    match spendEvalDecision cfg tats now b with
    | none => cur
    | some d => if d.Allowed then some d.newTAT else cur
  else cur

/-- For a fixed key `k`: the new TAT of the last occurrence of `k` in the
batch whose independent evaluation (against the fixed batch-get result)
was allowed, if any. -/
def lastAllowedNewTATFor (cfg : Config) (tats : List (String × Int)) (now : Int)
    (k : String) (bs : List BucketWithCost) : Option Int :=
  bs.foldl (lastTATStep cfg tats now k) none

/-!
## The Redis source's error classification

`resultForError` of source_redis.go is a chain of Go `errors.Is` /
`errors.As` tests.  Errors are modelled as an inductive type whose
`wrapped` constructor stands for `fmt.Errorf("...%w...", inner)`.
-/

/-- Model of a Go error value as seen by `resultForError`: the sentinel
`redis.Nil`, `context.DeadlineExceeded`, `context.Canceled`, a `net.Error`
whose `Timeout()` reports true or false, a Redis server error
(`redis.Error` / `proto.RedisError`, carrying its message), any other
error, or a wrapper (`fmt.Errorf` with `%w`) around another error. -/
inductive GoErr where
  | redisNil
  | ctxDeadlineExceeded
  | ctxCanceled
  | netTimeoutErr
  | netNonTimeoutErr
  | redisServerErr (msg : String)
  | otherErr (code : Nat)
  | wrapped (inner : GoErr)
deriving DecidableEq

/-- The unwrap chain of an error: the error itself followed by everything
it wraps. -/
def goErrChain : GoErr → List GoErr
  | .wrapped inner => .wrapped inner :: goErrChain inner
  | e => [e]

/-- Model of Go `errors.Is(e, target)` for the error values above (none of
the modelled sentinel types defines an `Is` method, so `errors.Is` is
equality somewhere along the unwrap chain of its FIRST argument). -/
def goErrIs (e target : GoErr) : Bool := (goErrChain e).contains target

/-- Whether a base (unwrapped) error value implements `net.Error`:
`context.DeadlineExceeded` does (its `Timeout()` is true), as do the two
modelled net errors. -/
def isNetError : GoErr → Bool
  | .netTimeoutErr => true
  | .netNonTimeoutErr => true
  | .ctxDeadlineExceeded => true
  | _ => false

/-- `Timeout()` of a base error implementing `net.Error`. -/
def netErrTimeout : GoErr → Bool
  | .netTimeoutErr => true
  | .ctxDeadlineExceeded => true
  | _ => false

/-- Model of Go `errors.As(e, &netErr)` for a `net.Error` target: the
first element of the unwrap chain implementing `net.Error`, if any. -/
def asFirstNetError (e : GoErr) : Option GoErr :=
  (goErrChain e).find? isNetError

/-- Model of Go `errors.Is(err, target)` where `target` is the nil
interface value (`var redisErr redis.Error` in source_redis.go): the
standard library returns `err == target`, which is false for every
non-nil error, i.e. for every error modelled here. -/
def goErrIsNilTarget (_ : GoErr) : Bool := false

/-- `resultForError` of source_redis.go, transliterated: note the swapped
arguments in the first test — the Go code reads
`errors.Is(redis.Nil, err)`, which unwraps `redis.Nil` (a chain of just
itself) rather than `err` — and the nil-interface target in the
`redis.Error` test. -/
def resultForError (err : GoErr) : String :=
  if goErrIs GoErr.redisNil err then "notFound"
  else if goErrIs err GoErr.ctxDeadlineExceeded then "deadlineExceeded"
  else if goErrIs err GoErr.ctxCanceled then "canceled"
  else if ((asFirstNetError err).map netErrTimeout).getD false then "timeout"
  else if goErrIsNilTarget err then "redisError"
  else "failed"

/-- Whether an operation produced a value (as opposed to an error). -/
def isOkRes {α : Type} : Except LimErr α → Bool
  | .ok _ => true
  | .error _ => false

/-!
## Concrete instances

Used to evaluate the operations on concrete inputs.  `limA` has burst 10
and an emission interval of 1 nanosecond (period 10ns / count 10), so TATs
can be read in emission-interval units. -/

/-- A concrete enabled limit: burst 10, emission interval 1. -/
def limA : limit := ⟨10, 10, 10, false⟩

/-- A concrete valid limit name. -/
def nameA : Name := ⟨true, "n1"⟩

/-- A concrete invalid limit name. -/
def nameX : Name := ⟨false, "zz"⟩

/-- A configuration with one default limit for `nameA` and no overrides. -/
def cfgA : Config := ⟨[("n1", limA)], []⟩

/-- A configuration with a default and an override for bucket key `n1:o`. -/
def cfgB : Config := ⟨[("n1", limA)], [("n1:o", ⟨20, 20, 20, true⟩)]⟩

/-- A configuration with no limits at all: every name is disabled. -/
def cfgE : Config := ⟨[], []⟩

/-- A concrete cancelable context with a deadline. -/
def ctxA : Ctx := ⟨true, some 5⟩

/-!
## Helper lemmas
-/

theorem withoutCancel_idem (c : Ctx) : withoutCancel (withoutCancel c) = withoutCancel c := rfl

theorem assocLookup_upsert {α : Type} (l : List (String × α)) (k1 : String) (v : α)
    (k : String) :
    assocLookup (upsert l k1 v) k = if k = k1 then some v else assocLookup l k := by
  induction l with
  | nil => simp [upsert, assocLookup]
  | cons hd tl ih =>
    obtain ⟨k2, v2⟩ := hd
    simp only [upsert]
    by_cases h1 : k1 = k2
    · subst h1
      simp only [if_pos rfl, assocLookup]
      by_cases h2 : k = k1 <;> simp [h2]
    · rw [if_neg h1]
      simp only [assocLookup]
      by_cases h2 : k = k2
      · subst h2
        have hne : ¬k = k1 := fun hc => h1 hc.symm
        simp [hne]
      · simp [h2, ih]

theorem mem_upsert_keys {α : Type} (l : List (String × α)) (k1 : String) (v : α)
    (x : String) :
    x ∈ (upsert l k1 v).map Prod.fst ↔ x ∈ l.map Prod.fst ∨ x = k1 := by
  induction l with
  | nil => simp [upsert]
  | cons hd tl ih =>
    obtain ⟨k2, v2⟩ := hd
    simp only [upsert]
    by_cases h1 : k1 = k2
    · subst h1
      rw [if_pos rfl]
      simp only [List.map_cons, List.mem_cons]
      tauto
    · rw [if_neg h1]
      simp only [List.map_cons, List.mem_cons, ih]
      tauto

theorem upsert_keys_nodup {α : Type} (l : List (String × α)) (k1 : String) (v : α)
    (h : (l.map Prod.fst).Nodup) : ((upsert l k1 v).map Prod.fst).Nodup := by
  induction l with
  | nil => simp [upsert]
  | cons hd tl ih =>
    obtain ⟨k2, v2⟩ := hd
    simp only [List.map_cons, List.nodup_cons] at h
    simp only [upsert]
    by_cases h1 : k1 = k2
    · subst h1
      rw [if_pos rfl]
      simp only [List.map_cons, List.nodup_cons]
      exact h
    · rw [if_neg h1]
      simp only [List.map_cons, List.nodup_cons]
      refine ⟨?_, ih h.2⟩
      intro hc
      rcases (mem_upsert_keys tl k1 v k2).mp hc with hm | he
      · exact h.1 hm
      · exact h1 he.symm

/-!
## Claim theorems
-/

/-- Claim C1, corrected.  The claim states that a Refund call with
cost > 0 on an enabled limit whose key the source reports as not found
returns a Denied decision (not an error) and performs no write.  The code
instead propagates the source's bucket-not-found error (`if err != nil
{ return nil, err }` in Refund makes no exception for ErrBucketNotFound).
This counterexample evaluates Refund on a missing key under an enabled
limit: the result is the bucket-not-found error and no Decision. -/
theorem refund_missing_bucket_cex :
    (refund cfgA ctxA [] ⟨nameA, "k", 7⟩ 0).res = .error .bucketNotFound ∧
    isOkRes (refund cfgA ctxA [] ⟨nameA, "k", 7⟩ 0).res = false := by
  decide

/-- Claim C1 as amended: for every Refund call with cost > 0 on a bucket
whose limit is enabled, if the source reports the bucket key as not found,
Refund propagates the bucket-not-found error (returning an error and no
decision) and performs no write to the source (its only source call is the
Get, and the store is unchanged). -/
theorem refund_missing_bucket_propagates_error
    (cfg : Config) (ctx : Ctx) (st : Store) (b : BucketWithCost) (now : Int) (lim : limit)
    (hc : 0 < b.cost) (hl : getLimit cfg b.name b.key = .ok lim)
    (hg : storeGet st b.key = none) :
    (refund cfg ctx st b now).res = .error .bucketNotFound ∧
    (refund cfg ctx st b now).store = st ∧
    (refund cfg ctx st b now).calls = [.get (withoutCancel ctx) b.key] := by
  have hc2 : ¬b.cost ≤ 0 := by omega
  simp [refund, if_neg hc2, hl, hg]

/-- Witness for the amended C1 theorem at a concrete input. -/
theorem refund_missing_bucket_propagates_error_witness :
    (refund cfgA ctxA [("other", 3)] ⟨nameA, "k", 7⟩ 0).res = .error .bucketNotFound ∧
    (refund cfgA ctxA [("other", 3)] ⟨nameA, "k", 7⟩ 0).store = [("other", 3)] ∧
    (refund cfgA ctxA [("other", 3)] ⟨nameA, "k", 7⟩ 0).calls =
      [.get (withoutCancel ctxA) "k"] :=
  refund_missing_bucket_propagates_error cfgA ctxA [("other", 3)] ⟨nameA, "k", 7⟩ 0 limA
    (by decide) (by decide) (by decide)

/-- Claim C7, confirmed: limit resolution for a valid name returns the
override when the key is non-empty and present in the overrides mapping,
otherwise the default for the name when present, otherwise the disabled
sentinel; an invalid name is surfaced as an error. -/
theorem getLimit_resolution (cfg : Config) (name : Name) (key : String) :
    (name.valid = false → getLimit cfg name key = .error .invalidName) ∧
    (name.valid = true →
      (∀ ol, key ≠ "" → assocLookup cfg.overrides key = some ol →
        getLimit cfg name key = .ok ol) ∧
      ((key = "" ∨ assocLookup cfg.overrides key = none) →
        (∀ dl, assocLookup cfg.defaults name.enumString = some dl →
          getLimit cfg name key = .ok dl) ∧
        (assocLookup cfg.defaults name.enumString = none →
          getLimit cfg name key = .error .limitDisabled))) := by
  refine ⟨fun hv => ?_,
    fun hv => ⟨fun ol hk ho => ?_, fun hno => ⟨fun dl hd => ?_, fun hd => ?_⟩⟩⟩
  · simp [getLimit, hv]
  · simp [getLimit, hv, hk, ho]
  · rcases hno with he | ho
    · simp [getLimit, hv, he, hd]
    · by_cases hk : key = "" <;> simp [getLimit, hv, hk, ho, hd]
  · rcases hno with he | ho
    · simp [getLimit, hv, he, hd]
    · by_cases hk : key = "" <;> simp [getLimit, hv, hk, ho, hd]

/-- Witness for the C7 theorem: the override for bucket key `n1:o` wins
over the default for `nameA`, at a concrete configuration. -/
theorem getLimit_resolution_witness :
    getLimit cfgB nameA "n1:o" = .ok ⟨20, 20, 20, true⟩ :=
  ((getLimit_resolution cfgB nameA "n1:o").2 (by decide)).1
    ⟨20, 20, 20, true⟩ (by decide) (by decide)

/-- Claim C6, confirmed: Check never issues a write (every source call it
makes is the single Get of the bucket's key, so no set or delete), the
store after Check equals the store before it, and a second Check on the
resulting store at the same time returns the identical result. -/
theorem check_purity (cfg : Config) (ctx : Ctx) (st : Store) (b : BucketWithCost)
    (now : Int) :
    (check cfg ctx st b now).store = st ∧
    (∀ c ∈ (check cfg ctx st b now).calls, c = SrcCall.get (withoutCancel ctx) b.key) ∧
    check cfg ctx ((check cfg ctx st b now).store) b now = check cfg ctx st b now := by
  have hs : (check cfg ctx st b now).store = st := by
    unfold check
    split
    · rfl
    · split
      · split <;> rfl
      · split
        · rfl
        · split <;> rfl
  refine ⟨hs, ?_, by rw [hs]⟩
  intro c hc
  unfold check at hc
  split at hc
  · simp at hc
  · split at hc
    · split at hc <;> simp at hc
    · split at hc
      · simp at hc
      · split at hc <;> simp_all

/-- Witness for the C6 theorem at a concrete input (extracting the
store-preservation conjunct). -/
theorem check_purity_witness :
    (check cfgA ctxA [("k", 3)] ⟨nameA, "k", 2⟩ 0).store = [("k", 3)] :=
  (check_purity cfgA ctxA [("k", 3)] ⟨nameA, "k", 2⟩ 0).1

/-- Claim C8, corrected.  The claim states the context handed to each
source call has client cancellation removed while the deadline is
preserved; the calls are indeed all issued with `context.WithoutCancel` of
the request context, but that stdlib function returns a context with no
Deadline, so the deadline is dropped, not preserved.  Counterexample: at a
concrete cancelable context carrying deadline 5, Check's single source
call carries a context whose deadline is none. -/
theorem detach_drops_deadline_cex :
    (check cfgA ctxA [("k", 3)] ⟨nameA, "k", 2⟩ 0).calls =
      [SrcCall.get (withoutCancel ctxA) "k"] ∧
    ctxA.deadline = some 5 ∧
    (callCtx (SrcCall.get (withoutCancel ctxA) "k")).deadline = none ∧
    (callCtx (SrcCall.get (withoutCancel ctxA) "k")).deadline ≠ ctxA.deadline := by
  decide

/-- Claim C8 as amended: in every Limiter operation, each source call is
issued with the cancellation-detached context `withoutCancel ctx`, which
has cancelability removed — so a source call is never issued with a
cancelable context — but carries no deadline (`context.WithoutCancel`
drops the parent's deadline rather than preserving it). -/
theorem operations_detach_cancellation (cfg : Config) (ctx : Ctx) (st : Store)
    (b : Bucket) (bw : BucketWithCost) (buckets : List BucketWithCost) (now : Int) :
    (withoutCancel ctx).cancelable = false ∧
    (withoutCancel ctx).deadline = none ∧
    (∀ c ∈ (check cfg ctx st bw now).calls, callCtx c = withoutCancel ctx) ∧
    (∀ c ∈ (spend cfg ctx st bw now).calls, callCtx c = withoutCancel ctx) ∧
    (∀ c ∈ (refund cfg ctx st bw now).calls, callCtx c = withoutCancel ctx) ∧
    (∀ c ∈ (reset st ctx b).calls, callCtx c = withoutCancel ctx) ∧
    (∀ c ∈ (batchSpend cfg ctx st buckets now).calls, callCtx c = withoutCancel ctx) ∧
    (∀ c ∈ (batchRefund cfg ctx st buckets now).calls, callCtx c = withoutCancel ctx) := by
  refine ⟨rfl, rfl, ?_, ?_, ?_, ?_, ?_, ?_⟩
  · intro c hc
    by_cases h0 : bw.cost < 0
    · simp [check, h0] at hc
    · cases hgl : getLimit cfg bw.name bw.key with
      | error e =>
        by_cases he : e = LimErr.limitDisabled <;> simp [check, h0, hgl, he] at hc
      | ok lim =>
        by_cases hb : lim.Burst < bw.cost
        · simp [check, h0, hgl, hb] at hc
        · cases hsg : storeGet st bw.key with
          | none => simp [check, h0, hgl, hb, hsg] at hc; subst hc; rfl
          | some tat => simp [check, h0, hgl, hb, hsg] at hc; subst hc; rfl
  · intro c hc
    by_cases h0 : bw.cost ≤ 0
    · simp [spend, h0] at hc
    · cases hgl : getLimit cfg bw.name bw.key with
      | error e =>
        by_cases he : e = LimErr.limitDisabled <;> simp [spend, h0, hgl, he] at hc
      | ok lim =>
        by_cases hb : lim.Burst < bw.cost
        · simp [spend, h0, hgl, hb] at hc
        · cases hsg : storeGet st bw.key with
          | none =>
            simp [spend, h0, hgl, hb, hsg, initBucket] at hc
            rcases hc with h | h <;> subst h <;> rfl
          | some tat =>
            by_cases hA : (maybeSpend now lim tat bw.cost).Allowed = false
            · simp [spend, h0, hgl, hb, hsg, hA] at hc
              subst hc; rfl
            · simp [spend, h0, hgl, hb, hsg, hA] at hc
              rcases hc with h | h <;> subst h <;> rfl
  · intro c hc
    by_cases h0 : bw.cost ≤ 0
    · simp [refund, h0] at hc
    · cases hgl : getLimit cfg bw.name bw.key with
      | error e =>
        by_cases he : e = LimErr.limitDisabled <;> simp [refund, h0, hgl, he] at hc
      | ok lim =>
        cases hsg : storeGet st bw.key with
        | none => simp [refund, h0, hgl, hsg] at hc; subst hc; rfl
        | some tat =>
          by_cases hA : (maybeRefund now lim tat bw.cost).Allowed = false
          · simp [refund, h0, hgl, hsg, hA] at hc
            subst hc; rfl
          · simp [refund, h0, hgl, hsg, hA] at hc
            rcases hc with h | h <;> subst h <;> rfl
  · intro c hc
    simp only [reset, List.mem_singleton] at hc
    subst hc; rfl
  · intro c hc
    by_cases h0 : buckets.isEmpty = true
    · simp [batchSpend, h0] at hc
    · by_cases h1 : (buckets.any fun b => b.cost ≤ 0) = true
      · simp [batchSpend, h0, h1] at hc
      · cases hlp : runBatchSpendLoop cfg
            (storeBatchGet st (List.map (fun b => b.key) buckets)) now
            batchSpendInitAcc buckets with
        | error e => simp [batchSpend, h0, h1, hlp] at hc; subst hc; rfl
        | ok acc =>
          by_cases hw : acc.newTATs ≠ [] ∧ acc.allowed = true
          · simp [batchSpend, h0, h1, hlp, hw] at hc
            rcases hc with h | h <;> subst h <;> rfl
          · simp [batchSpend, h0, h1, hlp, hw] at hc
            subst hc; rfl
  · intro c hc
    by_cases h0 : buckets.isEmpty = true
    · simp [batchRefund, h0] at hc
    · by_cases h1 : (buckets.any fun b => b.cost ≤ 0) = true
      · simp [batchRefund, h0, h1] at hc
      · cases hlp : runBatchRefundLoop cfg
            (storeBatchGet st (List.map (fun b => b.key) buckets)) now
            batchRefundInitAcc buckets with
        | error e => simp [batchRefund, h0, h1, hlp] at hc; subst hc; rfl
        | ok acc =>
          by_cases hw : acc.newTATs ≠ []
          · simp [batchRefund, h0, h1, hlp, hw] at hc
            rcases hc with h | h <;> subst h <;> rfl
          · simp [batchRefund, h0, h1, hlp, hw] at hc
            subst hc; rfl

/-- Witness for the amended C8 theorem at a concrete input (extracting the
detached-context facts and applying the Check conjunct to its call). -/
theorem operations_detach_cancellation_witness :
    callCtx (SrcCall.get (withoutCancel ctxA) "k") = withoutCancel ctxA ∧
    (withoutCancel ctxA).cancelable = false ∧
    (withoutCancel ctxA).deadline = none :=
  have h := operations_detach_cancellation cfgA ctxA [] ⟨nameA, "k"⟩ ⟨nameA, "k", 2⟩
    [⟨nameA, "k", 2⟩] 0
  ⟨h.2.2.1 (SrcCall.get (withoutCancel ctxA) "k") (by decide), h.1, h.2.1⟩

/-- Claim C5, confirmed (spec-modelled kernel): a Spend with
0 < cost ≤ burst on an enabled limit whose key the source reports as not
found initializes the bucket by evaluating the kernel against the current
time, persists the resulting TAT unconditionally, and returns an Allowed
decision.  The emission-interval nonnegativity hypothesis holds for every
limit (burst, count and period are positive by §3 of the spec). -/
theorem spend_initializes (cfg : Config) (ctx : Ctx) (st : Store) (b : BucketWithCost)
    (now : Int) (lim : limit)
    (hc : 0 < b.cost) (hl : getLimit cfg b.name b.key = .ok lim)
    (hb : b.cost ≤ lim.Burst) (he : 0 ≤ emissionInterval lim)
    (hg : storeGet st b.key = none) :
    (spend cfg ctx st b now).res = .ok (maybeSpend now lim now b.cost) ∧
    (maybeSpend now lim now b.cost).Allowed = true ∧
    (spend cfg ctx st b now).store = storeSet st b.key (maybeSpend now lim now b.cost).newTAT ∧
    (spend cfg ctx st b now).calls =
      [.get (withoutCancel ctx) b.key,
       .set (withoutCancel ctx) b.key (maybeSpend now lim now b.cost).newTAT] := by
  have h0 : ¬b.cost ≤ 0 := by omega
  have hb2 : ¬lim.Burst < b.cost := by omega
  have hAllowed : (maybeSpend now lim now b.cost).Allowed = true := by
    have hle : b.cost * emissionInterval lim ≤ lim.Burst * emissionInterval lim :=
      mul_le_mul_of_nonneg_right hb he
    simp only [maybeSpend, max_self]
    rw [if_neg (by linarith)]
  refine ⟨?_, hAllowed, ?_, ?_⟩ <;>
    simp [spend, h0, hl, hb2, hg, initBucket, withoutCancel]

/-- Witness for the C5 theorem at a concrete input: the spec's scenario 1
(empty bucket, cost 3, burst 10, emission interval 1). -/
theorem spend_initializes_witness :
    (spend cfgA ctxA [] ⟨nameA, "k", 3⟩ 0).res = .ok (maybeSpend 0 limA 0 3) ∧
    (maybeSpend 0 limA 0 3).Allowed = true ∧
    (spend cfgA ctxA [] ⟨nameA, "k", 3⟩ 0).store =
      storeSet [] "k" (maybeSpend 0 limA 0 3).newTAT ∧
    (spend cfgA ctxA [] ⟨nameA, "k", 3⟩ 0).calls =
      [.get (withoutCancel ctxA) "k",
       .set (withoutCancel ctxA) "k" (maybeSpend 0 limA 0 3).newTAT] :=
  spend_initializes cfgA ctxA [] ⟨nameA, "k", 3⟩ 0 limA (by decide) (by decide)
    (by decide) (by decide) (by decide)

/-- When every bucket of the list resolves to a disabled limit, the
BatchSpend loop skips every iteration and returns its accumulator
unchanged. -/
theorem runBatchSpendLoop_all_disabled (cfg : Config) (tats : List (String × Int))
    (now : Int) :
    ∀ (bs : List BucketWithCost) (acc : BatchAcc),
      (∀ b ∈ bs, getLimit cfg b.name b.key = .error .limitDisabled) →
      runBatchSpendLoop cfg tats now acc bs = .ok acc := by
  intro bs
  induction bs with
  | nil => intro acc _; rfl
  | cons b rest ih =>
    intro acc h
    have hb := h b (List.mem_cons_self b rest)
    simp only [runBatchSpendLoop, batchSpendStep, hb]
    exact ih acc (fun x hx => h x (List.mem_cons_of_mem b hx))

/-- Claim C9, confirmed: when every bucket of a BatchSpend batch resolves
to a disabled limit, the returned decision is Allowed with Remaining =
math.MaxInt64, zero RetryIn and ResetIn and a zero TAT — distinct from the
all-zero synthetic disabled-limit decision of the single-bucket
operations — and the only source call is the BatchGet (no write). -/
theorem batchSpend_all_disabled (cfg : Config) (ctx : Ctx) (st : Store)
    (buckets : List BucketWithCost) (now : Int)
    (hne : buckets ≠ [])
    (hc : ∀ b ∈ buckets, 0 < b.cost)
    (hd : ∀ b ∈ buckets, getLimit cfg b.name b.key = .error .limitDisabled) :
    (batchSpend cfg ctx st buckets now).res =
      .ok ⟨true, 9223372036854775807, 0, 0, goTimeZero⟩ ∧
    (batchSpend cfg ctx st buckets now).store = st ∧
    (batchSpend cfg ctx st buckets now).calls =
      [.batchGet (withoutCancel ctx) (buckets.map fun b => b.key)] ∧
    (⟨true, 9223372036854775807, 0, 0, goTimeZero⟩ : Decision) ≠ disabledLimitDecision := by
  have h0 : buckets.isEmpty = false := by
    cases buckets with
    | nil => exact absurd rfl hne
    | cons x xs => rfl
  have h1 : (buckets.any fun b => b.cost ≤ 0) = false := by
    rw [List.any_eq_false]
    intro b hb
    have := hc b hb
    simp only [decide_eq_true_eq]
    omega
  have hlp := runBatchSpendLoop_all_disabled cfg
    (storeBatchGet st (List.map (fun b => b.key) buckets)) now buckets
    batchSpendInitAcc hd
  have hw : ¬(batchSpendInitAcc.newTATs ≠ [] ∧ batchSpendInitAcc.allowed = true) := by
    simp [batchSpendInitAcc]
  have hres : batchSpend cfg ctx st buckets now =
      ⟨.ok ⟨batchSpendInitAcc.allowed, batchSpendInitAcc.minRemaining,
        batchSpendInitAcc.maxRetryIn, batchSpendInitAcc.maxResetIn,
        batchSpendInitAcc.maxNewTAT⟩, st,
       [.batchGet (withoutCancel ctx) (buckets.map fun b => b.key)]⟩ := by
    simp [batchSpend, h0, h1, hlp, hw]
  refine ⟨?_, ?_, ?_, by decide⟩ <;> (rw [hres]; try rfl)

/-- Witness for the C9 theorem: one bucket with a valid name under the
empty configuration (every name disabled). -/
theorem batchSpend_all_disabled_witness :
    (batchSpend cfgE ctxA [("a", 9)] [⟨nameA, "k", 1⟩] 0).res =
      .ok ⟨true, 9223372036854775807, 0, 0, goTimeZero⟩ ∧
    (batchSpend cfgE ctxA [("a", 9)] [⟨nameA, "k", 1⟩] 0).store = [("a", 9)] ∧
    (batchSpend cfgE ctxA [("a", 9)] [⟨nameA, "k", 1⟩] 0).calls =
      [.batchGet (withoutCancel ctxA)
        (([⟨nameA, "k", 1⟩] : List BucketWithCost).map (fun b => b.key))] ∧
    (⟨true, 9223372036854775807, 0, 0, goTimeZero⟩ : Decision) ≠ disabledLimitDecision := by
  have h := batchSpend_all_disabled cfgE ctxA [("a", 9)] [⟨nameA, "k", 1⟩] 0
    (by decide) (by decide) (by decide)
  exact h

/-- Claim C2, confirmed: a BatchSpend issues a batch-set to the source if
and only if it returns an Allowed consolidated decision and the loop
collected at least one new TAT; and whenever it returns a denied
consolidated decision, the store is unchanged (no key of the batch is
written). -/
theorem batchSpend_write_iff (cfg : Config) (ctx : Ctx) (st : Store)
    (buckets : List BucketWithCost) (now : Int) :
    ((∃ c m, SrcCall.batchSet c m ∈ (batchSpend cfg ctx st buckets now).calls) ↔
      (∃ d acc, (batchSpend cfg ctx st buckets now).res = Except.ok d ∧
        d.Allowed = true ∧
        runBatchSpendLoop cfg (storeBatchGet st (buckets.map fun b => b.key)) now
          batchSpendInitAcc buckets = Except.ok acc ∧
        acc.newTATs ≠ [])) ∧
    (∀ d, (batchSpend cfg ctx st buckets now).res = Except.ok d →
      d.Allowed = false → (batchSpend cfg ctx st buckets now).store = st) := by
  by_cases h0 : buckets.isEmpty = true
  · constructor
    · constructor
      · intro h
        exfalso
        obtain ⟨c, m, hm⟩ := h
        simp [batchSpend, h0] at hm
      · rintro ⟨d, acc, hres, -, -, -⟩
        exfalso
        simp [batchSpend, h0] at hres
    · intro d hd
      exfalso
      simp [batchSpend, h0] at hd
  · by_cases h1 : (buckets.any fun b => b.cost ≤ 0) = true
    · constructor
      · constructor
        · intro h
          exfalso
          obtain ⟨c, m, hm⟩ := h
          simp [batchSpend, h0, h1] at hm
        · rintro ⟨d, acc, hres, -, -, -⟩
          exfalso
          simp [batchSpend, h0, h1] at hres
      · intro d hd
        exfalso
        simp [batchSpend, h0, h1] at hd
    · cases hlp : runBatchSpendLoop cfg
          (storeBatchGet st (List.map (fun b => b.key) buckets)) now
          batchSpendInitAcc buckets with
      | error e =>
        constructor
        · constructor
          · intro h
            exfalso
            obtain ⟨c, m, hm⟩ := h
            simp [batchSpend, h0, h1, hlp] at hm
          · rintro ⟨d, acc, hres, -, -, -⟩
            exfalso
            simp [batchSpend, h0, h1, hlp] at hres
        · intro d hd
          exfalso
          simp [batchSpend, h0, h1, hlp] at hd
      | ok acc =>
        by_cases hw : acc.newTATs ≠ [] ∧ acc.allowed = true
        · constructor
          · constructor
            · intro _
              exact ⟨⟨acc.allowed, acc.minRemaining, acc.maxRetryIn, acc.maxResetIn,
                acc.maxNewTAT⟩, acc, by simp [batchSpend, h0, h1, hlp, hw], hw.2,
                rfl, hw.1⟩
            · intro _
              refine ⟨withoutCancel ctx, acc.newTATs, ?_⟩
              simp [batchSpend, h0, h1, hlp, hw]
          · intro d hd hda
            exfalso
            simp [batchSpend, h0, h1, hlp, hw] at hd
            rw [← hd] at hda
            simp [hw.2] at hda
        · constructor
          · constructor
            · intro h
              exfalso
              obtain ⟨c, m, hm⟩ := h
              simp [batchSpend, h0, h1, hlp, hw] at hm
            · rintro ⟨d, acc2, hres, hda, hloop, hnt⟩
              exfalso
              injection hloop with hacc
              subst hacc
              simp [batchSpend, h0, h1, hlp, hw] at hres
              rw [← hres] at hda
              simp at hda
              exact hw ⟨hnt, hda⟩
          · intro d hd hda
            simp [batchSpend, h0, h1, hlp, hw]

/-- Witness for the C2 theorem: a one-bucket batch that is denied (stored
TAT far in the future) leaves the store unchanged. -/
theorem batchSpend_write_iff_witness :
    (batchSpend cfgA ctxA [("k", 100)] [⟨nameA, "k", 3⟩] 0).store = [("k", 100)] :=
  (batchSpend_write_iff cfgA ctxA [("k", 100)] [⟨nameA, "k", 3⟩] 0).2
    ⟨false, 0, 93, 100, 100⟩ (by decide) (by decide)

/-- One BatchRefund iteration ORs the bucket's independent evaluation into
the accumulator's allowed flag. -/
theorem batchRefundStep_allowed (cfg : Config) (tats : List (String × Int)) (now : Int)
    (acc : BatchAcc) (b : BucketWithCost) (acc1 : BatchAcc)
    (h : batchRefundStep cfg tats now acc b = .ok acc1) :
    acc1.allowed = (acc.allowed || refundEvalAllowed cfg tats now b) := by
  cases hgl : getLimit cfg b.name b.key with
  | error e =>
    simp only [batchRefundStep, hgl] at h
    simp only [refundEvalAllowed, hgl]
    by_cases he : e = LimErr.limitDisabled
    · rw [if_pos he] at h
      injection h with h2
      subst h2
      simp
    · rw [if_neg he] at h
      exact absurd h (by simp)
  | ok lim =>
    simp only [batchRefundStep, hgl] at h
    simp only [refundEvalAllowed, hgl]
    cases hlt : assocLookup tats b.key with
    | none =>
      simp only [hlt] at h
      injection h with h2
      subst h2
      simp
    | some t =>
      simp only [hlt] at h
      by_cases hz : timeIsZero t = true
      · rw [if_pos hz] at h
        injection h with h2
        subst h2
        simp [hz]
      · rw [if_neg hz] at h
        injection h with h2
        subst h2
        simp [hz]

/-- The BatchRefund loop's allowed flag is the OR of the accumulator's
with the independent evaluations of all buckets of the list. -/
theorem runBatchRefundLoop_allowed (cfg : Config) (tats : List (String × Int))
    (now : Int) :
    ∀ (bs : List BucketWithCost) (acc acc2 : BatchAcc),
      runBatchRefundLoop cfg tats now acc bs = .ok acc2 →
      acc2.allowed = (acc.allowed || bs.any (refundEvalAllowed cfg tats now)) := by
  intro bs
  induction bs with
  | nil =>
    intro acc acc2 h
    injection h with h2
    subst h2
    simp
  | cons b rest ih =>
    intro acc acc2 h
    simp only [runBatchRefundLoop] at h
    cases hs : batchRefundStep cfg tats now acc b with
    | error e =>
      rw [hs] at h
      exact absurd h (by simp)
    | ok acc1 =>
      rw [hs] at h
      have h1 := batchRefundStep_allowed cfg tats now acc b acc1 hs
      have h2 := ih acc1 acc2 h
      rw [h2, h1, List.any_cons, Bool.or_assoc]

/-- Claim C3, confirmed: a BatchRefund's consolidated decision is Allowed
iff at least one evaluated bucket's refund was allowed, and a batch-set of
the collected new TATs is issued iff at least one bucket yielded a new
TAT, with no gating on the consolidated allowed flag. -/
theorem batchRefund_allowed_iff_write (cfg : Config) (ctx : Ctx) (st : Store)
    (buckets : List BucketWithCost) (now : Int) :
    (∀ d acc,
      runBatchRefundLoop cfg (storeBatchGet st (buckets.map fun b => b.key)) now
        batchRefundInitAcc buckets = Except.ok acc →
      (batchRefund cfg ctx st buckets now).res = Except.ok d →
      (d.Allowed = true ↔
        buckets.any (refundEvalAllowed cfg
          (storeBatchGet st (buckets.map fun b => b.key)) now) = true)) ∧
    ((∃ c m, SrcCall.batchSet c m ∈ (batchRefund cfg ctx st buckets now).calls) ↔
      (∃ d acc, (batchRefund cfg ctx st buckets now).res = Except.ok d ∧
        runBatchRefundLoop cfg (storeBatchGet st (buckets.map fun b => b.key)) now
          batchRefundInitAcc buckets = Except.ok acc ∧
        acc.newTATs ≠ [])) := by
  by_cases h0 : buckets.isEmpty = true
  · constructor
    · intro d acc hloop hres
      exfalso
      simp [batchRefund, h0] at hres
    · constructor
      · intro h
        exfalso
        obtain ⟨c, m, hm⟩ := h
        simp [batchRefund, h0] at hm
      · rintro ⟨d, acc, hres, -, -⟩
        exfalso
        simp [batchRefund, h0] at hres
  · by_cases h1 : (buckets.any fun b => b.cost ≤ 0) = true
    · constructor
      · intro d acc hloop hres
        exfalso
        simp [batchRefund, h0, h1] at hres
      · constructor
        · intro h
          exfalso
          obtain ⟨c, m, hm⟩ := h
          simp [batchRefund, h0, h1] at hm
        · rintro ⟨d, acc, hres, -, -⟩
          exfalso
          simp [batchRefund, h0, h1] at hres
    · cases hlp : runBatchRefundLoop cfg
          (storeBatchGet st (List.map (fun b => b.key) buckets)) now
          batchRefundInitAcc buckets with
      | error e =>
        constructor
        · intro d acc hloop hres
          exfalso
          simp at hloop
        · constructor
          · intro h
            exfalso
            obtain ⟨c, m, hm⟩ := h
            simp [batchRefund, h0, h1, hlp] at hm
          · rintro ⟨d, acc, hres, hloop, -⟩
            exfalso
            simp at hloop
      | ok acc =>
        have hall := runBatchRefundLoop_allowed cfg
          (storeBatchGet st (List.map (fun b => b.key) buckets)) now buckets
          batchRefundInitAcc acc hlp
        constructor
        · intro d acc2 hloop hres
          injection hloop with hacc
          subst hacc
          by_cases hw : acc.newTATs ≠ [] <;>
            simp [batchRefund, h0, h1, hlp, hw] at hres <;>
            rw [← hres] <;>
            simp only [hall, batchRefundInitAcc, Bool.false_or]
        · by_cases hw : acc.newTATs ≠ []
          · constructor
            · intro _
              exact ⟨⟨acc.allowed, acc.minRemaining, acc.maxRetryIn, acc.maxResetIn,
                acc.maxNewTAT⟩, acc, by simp [batchRefund, h0, h1, hlp, hw],
                rfl, hw⟩
            · intro _
              refine ⟨withoutCancel ctx, acc.newTATs, ?_⟩
              simp [batchRefund, h0, h1, hlp, hw]
          · constructor
            · intro h
              exfalso
              obtain ⟨c, m, hm⟩ := h
              simp [batchRefund, h0, h1, hlp, hw] at hm
            · rintro ⟨d, acc2, hres, hloop, hnt⟩
              exfalso
              injection hloop with hacc
              subst hacc
              exact hw hnt

/-- Witness for the C3 theorem: the spec's scenario 6 — one refundable
bucket and one missing bucket — issues the batch-set (and the decision is
Allowed). -/
theorem batchRefund_allowed_iff_write_witness :
    ∃ c m, SrcCall.batchSet c m ∈ (batchRefund cfgA ctxA [("a", 5)]
      [⟨nameA, "a", 3⟩, ⟨nameA, "b", 3⟩] 0).calls :=
  (batchRefund_allowed_iff_write cfgA ctxA [("a", 5)]
      [⟨nameA, "a", 3⟩, ⟨nameA, "b", 3⟩] 0).2.mpr
    ⟨⟨true, 8, 0, 2, 2⟩, ⟨8, 0, 2, 2, [("a", 2)], true⟩, by decide, by decide, by decide⟩

/-- One BatchSpend iteration transforms the newTATs entry of any fixed key
exactly as the independent per-occurrence fold step does. -/
theorem batchSpendStep_lookup (cfg : Config) (tats : List (String × Int)) (now : Int)
    (k : String) (acc : BatchAcc) (b : BucketWithCost) (acc1 : BatchAcc)
    (h : batchSpendStep cfg tats now acc b = .ok acc1) :
    assocLookup acc1.newTATs k =
      lastTATStep cfg tats now k (assocLookup acc.newTATs k) b := by
  cases hgl : getLimit cfg b.name b.key with
  | error e =>
    simp only [batchSpendStep, hgl] at h
    simp only [lastTATStep, spendEvalDecision, hgl]
    by_cases he : e = LimErr.limitDisabled
    · rw [if_pos he] at h
      injection h with h2
      subst h2
      by_cases hk : b.key = k <;> simp [hk]
    · rw [if_neg he] at h
      exact absurd h (by simp)
  | ok lim =>
    simp only [batchSpendStep, hgl] at h
    simp only [lastTATStep, spendEvalDecision, hgl]
    injection h with h2
    subst h2
    by_cases ha : (maybeSpend now lim (batchTATFor tats now b.key) b.cost).Allowed = true
    · simp only [ha, if_true]
      rw [assocLookup_upsert]
      by_cases hk : b.key = k
      · subst hk
        simp
      · have hk2 : ¬k = b.key := fun hc => hk hc.symm
        simp [hk, hk2]
    · simp [ha]

/-- The BatchSpend loop's newTATs entry of any fixed key is the fold of
the independent per-occurrence evaluations over the bucket list. -/
theorem runBatchSpendLoop_lookup (cfg : Config) (tats : List (String × Int)) (now : Int)
    (k : String) :
    ∀ (bs : List BucketWithCost) (acc acc2 : BatchAcc),
      runBatchSpendLoop cfg tats now acc bs = .ok acc2 →
      assocLookup acc2.newTATs k =
        bs.foldl (lastTATStep cfg tats now k) (assocLookup acc.newTATs k) := by
  intro bs
  induction bs with
  | nil =>
    intro acc acc2 h
    injection h with h2
    subst h2
    rfl
  | cons b rest ih =>
    intro acc acc2 h
    simp only [runBatchSpendLoop] at h
    cases hs : batchSpendStep cfg tats now acc b with
    | error e =>
      rw [hs] at h
      exact absurd h (by simp)
    | ok acc1 =>
      rw [hs] at h
      rw [List.foldl_cons, ← batchSpendStep_lookup cfg tats now k acc b acc1 hs]
      exact ih acc1 acc2 h

/-- One BatchSpend iteration preserves distinctness of the newTATs keys. -/
theorem batchSpendStep_keys_nodup (cfg : Config) (tats : List (String × Int)) (now : Int)
    (acc : BatchAcc) (b : BucketWithCost) (acc1 : BatchAcc)
    (h : batchSpendStep cfg tats now acc b = .ok acc1)
    (hn : (acc.newTATs.map Prod.fst).Nodup) :
    (acc1.newTATs.map Prod.fst).Nodup := by
  cases hgl : getLimit cfg b.name b.key with
  | error e =>
    simp only [batchSpendStep, hgl] at h
    by_cases he : e = LimErr.limitDisabled
    · rw [if_pos he] at h
      injection h with h2
      subst h2
      exact hn
    · rw [if_neg he] at h
      exact absurd h (by simp)
  | ok lim =>
    simp only [batchSpendStep, hgl] at h
    injection h with h2
    subst h2
    by_cases ha : (maybeSpend now lim (batchTATFor tats now b.key) b.cost).Allowed = true
    · simp only [ha, if_true]
      exact upsert_keys_nodup _ _ _ hn
    · have ha2 : (maybeSpend now lim (batchTATFor tats now b.key) b.cost).Allowed = false := by
        cases hx : (maybeSpend now lim (batchTATFor tats now b.key) b.cost).Allowed
        · rfl
        · exact absurd hx ha
      simp only [ha2, if_false]
      exact hn

/-- The BatchSpend loop preserves distinctness of the newTATs keys. -/
theorem runBatchSpendLoop_keys_nodup (cfg : Config) (tats : List (String × Int))
    (now : Int) :
    ∀ (bs : List BucketWithCost) (acc acc2 : BatchAcc),
      runBatchSpendLoop cfg tats now acc bs = .ok acc2 →
      (acc.newTATs.map Prod.fst).Nodup → (acc2.newTATs.map Prod.fst).Nodup := by
  intro bs
  induction bs with
  | nil =>
    intro acc acc2 h hn
    injection h with h2
    subst h2
    exact hn
  | cons b rest ih =>
    intro acc acc2 h hn
    simp only [runBatchSpendLoop] at h
    cases hs : batchSpendStep cfg tats now acc b with
    | error e =>
      rw [hs] at h
      exact absurd h (by simp)
    | ok acc1 =>
      rw [hs] at h
      exact ih acc1 acc2 h (batchSpendStep_keys_nodup cfg tats now acc b acc1 hs hn)

/-- Claim C10, confirmed: when one BatchSpend call issues a batch-set, the
value written for any key `k` is the new TAT of the last occurrence of `k`
in the batch whose independent evaluation — against the TAT delivered by
the single batch-get, identically for every occurrence, with no cost
accumulation across occurrences — was allowed; and the written map holds
at most one entry per key. -/
theorem batchSpend_duplicate_keys (cfg : Config) (ctx : Ctx) (st : Store)
    (buckets : List BucketWithCost) (now : Int) (k : String) (c : Ctx)
    (m : List (String × Int))
    (hm : SrcCall.batchSet c m ∈ (batchSpend cfg ctx st buckets now).calls) :
    assocLookup m k =
      lastAllowedNewTATFor cfg (storeBatchGet st (buckets.map fun b => b.key)) now
        k buckets ∧
    (m.map Prod.fst).Nodup := by
  by_cases h0 : buckets.isEmpty = true
  · exfalso
    simp [batchSpend, h0] at hm
  · by_cases h1 : (buckets.any fun b => b.cost ≤ 0) = true
    · exfalso
      simp [batchSpend, h0, h1] at hm
    · cases hlp : runBatchSpendLoop cfg
          (storeBatchGet st (List.map (fun b => b.key) buckets)) now
          batchSpendInitAcc buckets with
      | error e =>
        exfalso
        simp [batchSpend, h0, h1, hlp] at hm
      | ok acc =>
        by_cases hw : acc.newTATs ≠ [] ∧ acc.allowed = true
        · simp [batchSpend, h0, h1, hlp, hw] at hm
          obtain ⟨-, hm2⟩ := hm
          subst hm2
          constructor
          · rw [runBatchSpendLoop_lookup cfg
              (storeBatchGet st (List.map (fun b => b.key) buckets)) now k buckets
              batchSpendInitAcc acc hlp]
            rfl
          · exact runBatchSpendLoop_keys_nodup cfg
              (storeBatchGet st (List.map (fun b => b.key) buckets)) now buckets
              batchSpendInitAcc acc hlp (by simp [batchSpendInitAcc])
        · exfalso
          simp [batchSpend, h0, h1, hlp, hw] at hm

/-- Witness for the C10 theorem: a batch with the same key twice (costs 2
and 3 on an empty store) writes a single entry holding the last allowed
occurrence's new TAT. -/
theorem batchSpend_duplicate_keys_witness :
    assocLookup [("k", 3)] "k" =
      lastAllowedNewTATFor cfgA
        (storeBatchGet []
          (([⟨nameA, "k", 2⟩, ⟨nameA, "k", 3⟩] : List BucketWithCost).map fun b => b.key))
        0 "k" [⟨nameA, "k", 2⟩, ⟨nameA, "k", 3⟩] ∧
    ((([("k", 3)] : List (String × Int)).map Prod.fst).Nodup) :=
  batchSpend_duplicate_keys cfgA ctxA [] [⟨nameA, "k", 2⟩, ⟨nameA, "k", 3⟩] 0 "k"
    (withoutCancel ctxA) [("k", 3)] (by decide)

/-- Claim C4, a code bug.  The claim (with the spec) describes the
intended classification, but two slips defeat it: the code tests
`errors.Is(redis.Nil, err)` with swapped arguments, so only an error
exactly equal to redis.Nil — never a wrapper of it — classifies as
"notFound"; and it tests `errors.Is(err, redisErr)` against a nil
`redis.Error` interface value (instead of `errors.As`), which is false for
every non-nil error, so the "redisError" label is unreachable and Redis
server errors classify as "failed".  Shown: no error at all yields
"redisError"; a wrapped redis.Nil and a Redis server error both yield
"failed"; the exact redis.Nil still yields "notFound", and the wrapped
context errors classify as documented. -/
theorem resultForError_bug :
    (∀ e : GoErr, resultForError e ≠ "redisError") ∧
    resultForError (GoErr.wrapped GoErr.redisNil) = "failed" ∧
    resultForError (GoErr.redisServerErr "ERR Example") = "failed" ∧
    resultForError GoErr.redisNil = "notFound" ∧
    resultForError (GoErr.wrapped GoErr.ctxDeadlineExceeded) = "deadlineExceeded" ∧
    resultForError (GoErr.wrapped GoErr.ctxCanceled) = "canceled" ∧
    resultForError (GoErr.wrapped GoErr.netTimeoutErr) = "timeout" := by
  refine ⟨?_, by decide, by decide, by decide, by decide, by decide, by decide⟩
  intro e
  unfold resultForError
  split
  · decide
  · split
    · decide
    · split
      · decide
      · split
        · decide
        · split
          · rename_i hnil
            simp [goErrIsNilTarget] at hnil
          · decide

end BoulderRL
